import Mathlib

/-!
Verification of the retry, leasing and caching logic of the
procrastinate-demo application.

The definitions below are shallow embeddings of the Python source:
`app/procrastinate_app.py` (the `ExponentialBackoffStrategy` class),
`app/tasks.py` (the `fetch_and_cache_joke` handler and the
`_cache_joke_in_db` upsert) and `app/models.py` (the `ChuckNorrisJoke`
row).  Python floats for delays are embedded as exact rationals,
Python `int()` as truncation toward zero, and the exception classes
that appear in the application as a finite class hierarchy with
`isinstance` as subclass-closed membership.
-/

/-- The Python exception classes that occur in the application, together
with the library classes above them.  `timeoutError` is the builtin
`TimeoutError` (which `asyncio.timeout` raises and which is the same class
as `asyncio.TimeoutError` on the Python versions the project targets);
`httpError`, `transportError` and `timeoutException` are the `httpx`
classes, `taskError` is the application's own `TaskError` from
`app/tasks.py`. -/
inductive ExcClass where
  | baseException
  | exception
  | taskError
  | valueError
  | runtimeError
  | osError
  | timeoutError
  | httpError
  | transportError
  | timeoutException
deriving DecidableEq, Repr

/-- The linearization of each class's superclasses (the class itself
first), following the Python/httpx class hierarchy: `TaskError`,
`ValueError`, `RuntimeError`, `OSError` and `httpx.HTTPError` extend
`Exception`; `TimeoutError` extends `OSError`; `httpx.TransportError`
extends `httpx.HTTPError` and `httpx.TimeoutException` extends
`httpx.TransportError`. -/
def mro : ExcClass → List ExcClass
  | .baseException => [.baseException]
  | .exception => [.exception, .baseException]
  | .taskError => [.taskError, .exception, .baseException]
  | .valueError => [.valueError, .exception, .baseException]
  | .runtimeError => [.runtimeError, .exception, .baseException]
  | .osError => [.osError, .exception, .baseException]
  | .timeoutError => [.timeoutError, .osError, .exception, .baseException]
  | .httpError => [.httpError, .exception, .baseException]
  | .transportError => [.transportError, .httpError, .exception, .baseException]
  | .timeoutException => [.timeoutException, .transportError, .httpError, .exception, .baseException]

/-- Python's `isinstance(e, t)`: an exception value is modelled by its
most-derived class `e`, and `isinstance` holds when `t` is `e` or one of
its superclasses. -/
def pyIsinstance (e t : ExcClass) : Bool :=
  decide (t ∈ mro e)

/-- Python's `int()` applied to an exact rational: truncation toward
zero (not rounding). -/
def ratTrunc (q : ℚ) : ℤ :=
  q.num.tdiv q.den

/-- The slice of a procrastinate job visible to the retry strategy:
`job.attempts`, the number of attempts already made. -/
structure Job where
  attempts : ℕ
deriving DecidableEq, Repr

/-- procrastinate's `RetryDecision(retry_in=...)` as constructed by the
application: a delay in whole seconds before the next attempt. -/
structure RetryDecision where
  retry_in : ℤ
deriving DecidableEq, Repr

/-- The `{"seconds": ...}` dictionary returned by the deprecated
`get_schedule_in` entry point. -/
structure ScheduleIn where
  seconds : ℤ
deriving DecidableEq, Repr

/-- The configuration of `ExponentialBackoffStrategy.__init__`
(`app/procrastinate_app.py`): `max_attempts`, `base_delay`, `max_delay`
and the optional `retry_exceptions` list (`none` embeds Python's
`None`). -/
structure ExponentialBackoffStrategy where
  max_attempts : ℕ
  base_delay : ℚ
  max_delay : ℚ
  retry_exceptions : Option (List ExcClass)
deriving DecidableEq, Repr

/-- The method `ExponentialBackoffStrategy.get_retry_decision`
(`app/procrastinate_app.py` lines 40-72): give up (`None`) once
`job.attempts >= max_attempts`; give up when a `retry_exceptions` list is
configured, an exception is supplied, and the exception is an instance of
none of the listed classes; otherwise grant a retry of
`int(min(base_delay * 2 ** attempts, max_delay))` seconds. -/
def get_retry_decision (s : ExponentialBackoffStrategy)
    (exception : Option ExcClass) (job : Job) : Option RetryDecision :=
  if job.attempts ≥ s.max_attempts then
    none
  else if (match s.retry_exceptions, exception with
    | some excs, some e => ! excs.any (fun t => pyIsinstance e t)
    | _, _ => false) then
    none
  else
    some ⟨ratTrunc (min (s.base_delay * 2 ^ job.attempts) s.max_delay)⟩

/-- The method `ExponentialBackoffStrategy.get_schedule_in`
(`app/procrastinate_app.py` lines 74-102), the deprecated entry point,
whose body duplicates the logic of `get_retry_decision` but takes the
attempt count directly and returns a `{"seconds": ...}` dictionary. -/
def get_schedule_in (s : ExponentialBackoffStrategy)
    (exception : Option ExcClass) (attempts : ℕ) : Option ScheduleIn :=
  if attempts ≥ s.max_attempts then
    none
  else if (match s.retry_exceptions, exception with
    | some excs, some e => ! excs.any (fun t => pyIsinstance e t)
    | _, _ => false) then
    none
  else
    some ⟨ratTrunc (min (s.base_delay * 2 ^ attempts) s.max_delay)⟩

/-- The exception that the `fetch_and_cache_joke` handler
(`app/tasks.py` lines 54-90) raises to the engine when its body fails
with exception `e`: the four `except` clauses catch
`asyncio.TimeoutError` (raised when the `job_timeout` deadline elapses),
`httpx.TimeoutException`, `httpx.HTTPError` and any other `Exception`,
and every one of them re-raises the application's `TaskError`. -/
def fetch_and_cache_joke_raises (e : ExcClass) : ExcClass :=
  if pyIsinstance e .timeoutError then .taskError
  else if pyIsinstance e .timeoutException then .taskError
  else if pyIsinstance e .httpError then .taskError
  else .taskError

/-- The retry strategy `fetch_and_cache_joke` is registered with
(`app/tasks.py` lines 22-31): `settings.max_retries = 5`,
`settings.retry_base_delay = 2.0` and `settings.retry_max_delay = 300.0`
(defaults from `app/config.py`), with
`retry_exceptions = [TaskError, httpx.HTTPError, httpx.TimeoutException]`. -/
def fetch_and_cache_joke_retry : ExponentialBackoffStrategy :=
  ⟨5, 2, 300, some [.taskError, .httpError, .timeoutException]⟩

/-- The job states of the engine's state machine. -/
inductive JobStatus where
  | todo
  | doing
  | succeeded
  | failed
  | cancelled
deriving DecidableEq, Repr

/-- The slice of a stored job row relevant to leasing: its id and its
status. -/
structure StoreJob where
  id : ℕ
  status : JobStatus
deriving DecidableEq, Repr

/-- Modelled from the spec: the dispatcher's `lease` operation.  The
leasing code itself lives in the external `procrastinate` library, not in
this repository; the spec requires that a lease selects a ready
(`todo`) job and that the `doing` transition plus owner assignment is a
single atomic conditional update against the store.  `lease` picks the
first `todo` job, atomically marks it `doing`, and returns its id. -/
def lease : List StoreJob → Option ℕ × List StoreJob
  | [] => (none, [])
  | j :: rest =>
    if j.status = .todo then
      (some j.id, ⟨j.id, .doing⟩ :: rest)
    else
      ((lease rest).1, j :: (lease rest).2)

/-- Modelled from the spec: `n` concurrent leasers each calling `lease`
once.  Because each `lease` call is a single atomic operation on the
store, any concurrent execution of `n` such calls is equivalent to some
sequence of `n` atomic `lease` steps; `leaseMany n` runs that sequence
and collects the returned job ids. -/
def leaseMany : ℕ → List StoreJob → List ℕ × List StoreJob
  | 0, s => ([], s)
  | n + 1, s =>
    match lease s with
    | (some i, s2) => (i :: (leaseMany n s2).1, (leaseMany n s2).2)
    | (none, s2) => leaseMany n s2

/-- The number of ready (`todo`) jobs in the store. -/
def readyCount (s : List StoreJob) : ℕ :=
  (s.filter (fun j => decide (j.status = .todo))).length

/-- The ids of the ready (`todo`) jobs in the store. -/
def todoIds (s : List StoreJob) : List ℕ :=
  (s.filter (fun j => decide (j.status = .todo))).map StoreJob.id

/-- The columns of the `chuck_norris_jokes` row (`app/models.py`) that
the handler's upsert writes: the stable key `joke_id` plus the payload
columns.  The `created_at`/`updated_at` columns are server-clock
defaults and the surrogate `id` is store-assigned; neither is part of
the pure store state modelled here. -/
structure JokeRow where
  joke_id : String
  category : Option String
  joke_text : String
  icon_url : Option String
  url : Option String
deriving DecidableEq, Repr

/-- The per-row effect of the `ON CONFLICT (joke_id) DO UPDATE` clause of
`_cache_joke_in_db` (`app/tasks.py` lines 134-152): a row whose
`joke_id` matches the incoming values has its `joke_text`, `category`,
`icon_url` and `url` columns overwritten; any other row is unchanged. -/
def upsertRow (x r : JokeRow) : JokeRow :=
  if x.joke_id = r.joke_id then
    ⟨x.joke_id, r.category, r.joke_text, r.icon_url, r.url⟩
  else x

/-- The helper `_cache_joke_in_db` (`app/tasks.py` lines 118-162): the
`INSERT ... ON CONFLICT (joke_id) DO UPDATE` statement against a store of
joke rows.  If some row already carries the incoming `joke_id` the
conflicting row is updated in place, otherwise the new row is
inserted. -/
def cache_joke_in_db (store : List JokeRow) (r : JokeRow) : List JokeRow :=
  if store.any (fun x => decide (x.joke_id = r.joke_id)) then
    store.map (fun x => upsertRow x r)
  else
    store ++ [r]


/-- Helper: whenever attempts remain and either no `retry_exceptions`
list is configured or the supplied exception matches a listed class,
`get_retry_decision` grants a retry of
`int(min(base_delay * 2 ** attempts, max_delay))` seconds. -/
theorem get_retry_decision_grant (s : ExponentialBackoffStrategy)
    (e : Option ExcClass) (j : Job)
    (hlt : j.attempts < s.max_attempts)
    (hretry : s.retry_exceptions = none ∨
      ∃ l ex, s.retry_exceptions = some l ∧ e = some ex ∧
        (l.any fun t => pyIsinstance ex t) = true) :
    get_retry_decision s e j =
      some ⟨ratTrunc (min (s.base_delay * 2 ^ j.attempts) s.max_delay)⟩ := by
  unfold get_retry_decision
  rw [if_neg (by omega)]
  rcases hretry with hnone | ⟨l, ex, hl, he, hany⟩
  · rw [hnone]
    cases e <;> rfl
  · rw [hl, he]
    simp [hany]

/-- C1: for every retry policy configuration and every attempts value
with `attempts < max_attempts`, when no restriction set is configured
(`retry_exceptions` is `None`) or the exception is of a retryable kind
(an instance of a listed class, sub-kinds included),
`get_retry_decision` returns a retry whose delay equals
`min(base_delay * 2 ^ attempts, max_delay)` truncated to whole seconds
(not rounded). -/
theorem c1_backoff_delay_formula (s : ExponentialBackoffStrategy)
    (e : Option ExcClass) (j : Job)
    (hlt : j.attempts < s.max_attempts)
    (hretry : s.retry_exceptions = none ∨
      ∃ l ex, s.retry_exceptions = some l ∧ e = some ex ∧
        (l.any fun t => pyIsinstance ex t) = true) :
    get_retry_decision s e j =
      some ⟨ratTrunc (min (s.base_delay * 2 ^ j.attempts) s.max_delay)⟩ :=
  get_retry_decision_grant s e j hlt hretry

/-- C1 witness: with `base_delay = 3/2`, `max_delay = 300`, the listed
class `httpx.HTTPError` and the sub-kind exception
`httpx.TimeoutException` at `attempts = 0`, the granted delay is
`int(1.5) = 1` (truncated, not rounded). -/
theorem c1_backoff_delay_formula_witness :
    (0:ℕ) < 5 ∧
      get_retry_decision ⟨5, 3/2, 300, some [.httpError]⟩
        (some .timeoutException) ⟨0⟩ = some ⟨1⟩ :=
  ⟨by decide,
    (c1_backoff_delay_formula ⟨5, 3/2, 300, some [.httpError]⟩
        (some .timeoutException) ⟨0⟩ (by decide)
        (Or.inr ⟨[.httpError], .timeoutException, rfl, rfl, by decide⟩)).trans
      (by with_unfolding_all rfl)⟩

/-- C2: for every retry policy configuration, every exception (of any
kind or absent), and every attempts value with
`attempts >= max_attempts`, `get_retry_decision` returns `None`
(give up). -/
theorem c2_exhausted_attempts_give_up (s : ExponentialBackoffStrategy)
    (e : Option ExcClass) (j : Job)
    (h : j.attempts ≥ s.max_attempts) :
    get_retry_decision s e j = none := by
  unfold get_retry_decision
  rw [if_pos h]

/-- C2 witness: with `max_attempts = 3` and `attempts = 3` the strategy
gives up even though an exception of a listed retryable class is
supplied. -/
theorem c2_exhausted_attempts_give_up_witness :
    (3:ℕ) ≥ 3 ∧
      get_retry_decision ⟨3, 2, 300, some [.taskError]⟩
        (some .taskError) ⟨3⟩ = none :=
  ⟨by decide,
    c2_exhausted_attempts_give_up ⟨3, 2, 300, some [.taskError]⟩
      (some .taskError) ⟨3⟩ (by decide)⟩

/-- C3: for every retry policy configured with a non-empty
`retry_exceptions` list, and every supplied exception that is an
instance of none of the listed classes (sub-kind matching included),
`get_retry_decision` returns `None` for every attempts value. -/
theorem c3_unlisted_exception_gives_up (s : ExponentialBackoffStrategy)
    (l : List ExcClass) (ex : ExcClass) (j : Job)
    (hconf : s.retry_exceptions = some l) (hne : l ≠ [])
    (hnomatch : ∀ t ∈ l, pyIsinstance ex t = false) :
    get_retry_decision s (some ex) j = none := by
  unfold get_retry_decision
  rcases le_or_lt s.max_attempts j.attempts with h | h
  · rw [if_pos h]
  · rw [if_neg (by omega), hconf]
    have hany : (l.any fun t => pyIsinstance ex t) = false := by
      rw [List.any_eq_false]
      intro t ht
      simp [hnomatch t ht]
    simp [hany]

/-- C3 witness: a `ValueError` against the restriction list
`[TaskError]` is rejected at `attempts = 0`, with attempts remaining. -/
theorem c3_unlisted_exception_gives_up_witness :
    [ExcClass.taskError] ≠ [] ∧
      get_retry_decision ⟨5, 2, 300, some [.taskError]⟩
        (some .valueError) ⟨0⟩ = none :=
  ⟨by decide,
    c3_unlisted_exception_gives_up ⟨5, 2, 300, some [.taskError]⟩
      [.taskError] .valueError ⟨0⟩ rfl (by decide) (by decide)⟩

/-- C5 counterexample: the claim says a policy whose restriction set is
absent **or empty** retries every failure kind while attempts remain,
but with `retry_exceptions = []`, an exception supplied and
`attempts = 0 < max_attempts = 5`, `get_retry_decision` gives up: the
code treats the empty list as "retry nothing", not "retry anything". -/
theorem c5_counterexample :
    (0:ℕ) < 5 ∧
      get_retry_decision ⟨5, 2, 300, some []⟩ (some .valueError) ⟨0⟩ =
        none := by
  constructor
  · decide
  · with_unfolding_all rfl

/-- C5 (amended): for every retry policy whose restriction set is absent
(`retry_exceptions` is `None`), `get_retry_decision` retries on every
failure kind: for any exception and any attempts value with
`attempts < max_attempts` it returns a retry decision, never `None`.
(An **empty** restriction list, by contrast, gives up as soon as an
exception is supplied.) -/
theorem c5_amended_absent_restriction_retries_all
    (s : ExponentialBackoffStrategy) (e : Option ExcClass) (j : Job)
    (hnone : s.retry_exceptions = none)
    (hlt : j.attempts < s.max_attempts) :
    get_retry_decision s e j =
      some ⟨ratTrunc (min (s.base_delay * 2 ^ j.attempts) s.max_delay)⟩ :=
  get_retry_decision_grant s e j hlt (Or.inl hnone)

/-- C5 witness: with no restriction set configured, a `RuntimeError` at
`attempts = 2` is granted a retry of `int(min(2 * 4, 300)) = 8`
seconds. -/
theorem c5_amended_absent_restriction_retries_all_witness :
    (2:ℕ) < 5 ∧
      get_retry_decision ⟨5, 2, 300, none⟩ (some .runtimeError) ⟨2⟩ =
        some ⟨8⟩ :=
  ⟨by decide,
    (c5_amended_absent_restriction_retries_all ⟨5, 2, 300, none⟩
        (some .runtimeError) ⟨2⟩ rfl (by decide)).trans
      (by with_unfolding_all rfl)⟩

/-- C7: for every retry policy with `0 <= max_delay < base_delay`, every
granted retry delay equals `max_delay` (truncated to whole seconds),
whichever exception and attempts value produced it — including the
first attempt. -/
theorem c7_small_max_delay_caps_every_delay
    (s : ExponentialBackoffStrategy) (e : Option ExcClass) (j : Job)
    (d : RetryDecision)
    (h0 : 0 ≤ s.max_delay) (hcap : s.max_delay < s.base_delay)
    (hgrant : get_retry_decision s e j = some d) :
    d.retry_in = ratTrunc s.max_delay := by
  unfold get_retry_decision at hgrant
  split at hgrant
  · exact absurd hgrant (by simp)
  · split at hgrant
    · exact absurd hgrant (by simp)
    · have h2 : (1:ℚ) ≤ 2 ^ j.attempts := one_le_pow₀ (by norm_num)
      have hmin : min (s.base_delay * 2 ^ j.attempts) s.max_delay =
          s.max_delay := by
        have hle : s.max_delay ≤ s.base_delay * 2 ^ j.attempts := by
          nlinarith
        exact min_eq_right hle
      rw [hmin] at hgrant
      injection hgrant with h
      rw [← h]

/-- C7 witness: the spec's scenario `base_delay = 10`, `max_delay = 5`:
the delay granted on the first attempt (`attempts = 0`) is `5`, not
`10`. -/
theorem c7_small_max_delay_caps_every_delay_witness :
    (0:ℚ) ≤ 5 ∧ (5:ℚ) < 10 ∧
      get_retry_decision ⟨5, 10, 5, none⟩ none ⟨0⟩ = some ⟨5⟩ ∧
      (⟨5⟩ : RetryDecision).retry_in = ratTrunc 5 :=
  ⟨by norm_num, by norm_num, by with_unfolding_all rfl,
    c7_small_max_delay_caps_every_delay ⟨5, 10, 5, none⟩ none ⟨0⟩ ⟨5⟩
      (by norm_num) (by norm_num) (by with_unfolding_all rfl)⟩

/-- C9: the two retry-decision entry points agree: for every policy
configuration, every exception (or `None`) and every attempts value,
`get_retry_decision(exception, job)` is `None` exactly when
`get_schedule_in(exception, job.attempts)` is `None`, and when both
grant a retry the `retry_in` value equals the `"seconds"` value.  Both
facts are packaged as equality of the projected options. -/
theorem c9_entry_points_agree (s : ExponentialBackoffStrategy)
    (e : Option ExcClass) (j : Job) :
    Option.map RetryDecision.retry_in (get_retry_decision s e j) =
      Option.map ScheduleIn.seconds (get_schedule_in s e j.attempts) := by
  unfold get_retry_decision get_schedule_in
  by_cases h1 : j.attempts ≥ s.max_attempts
  · rw [if_pos h1, if_pos h1]
    rfl
  · rw [if_neg h1, if_neg h1]
    by_cases h2 : (match s.retry_exceptions, e with
      | some excs, some ex => ! excs.any (fun t => pyIsinstance ex t)
      | _, _ => false) = true
    · rw [if_pos h2, if_pos h2]
      rfl
    · rw [if_neg h2, if_neg h2]
      rfl

/-- C10: when the exception argument is `None`, the configured
restriction set is ignored entirely: for every policy — whatever its
`retry_exceptions` field, absent, empty or non-empty —
`get_retry_decision` with exception `None` grants a retry exactly when
`attempts < max_attempts`, with the usual capped exponential delay, so
the decision depends only on the attempt count. -/
theorem c10_no_exception_ignores_restriction
    (s : ExponentialBackoffStrategy) (j : Job) :
    get_retry_decision s none j =
      (if j.attempts < s.max_attempts then
        some ⟨ratTrunc (min (s.base_delay * 2 ^ j.attempts) s.max_delay)⟩
      else none) := by
  unfold get_retry_decision
  rcases lt_or_ge j.attempts s.max_attempts with h | h
  · rw [if_neg (by omega), if_pos h]
    cases s.retry_exceptions <;> rfl
  · rw [if_pos h, if_neg (by omega)]

/-- C6 counterexample: when the `job_timeout` deadline elapses the
handler raises the application's generic `TaskError`, not an outcome of
a dedicated `Timeout` kind: the kind produced by the timeout path is
`TaskError`, which is distinct from the timeout exception class and is
the very same kind the handler produces for an unrelated failure such as
a `ValueError`, so the retry policy is consulted with `TaskError`, not
with a timeout-specific kind. -/
theorem c6_counterexample :
    fetch_and_cache_joke_raises .timeoutError = .taskError ∧
      ExcClass.taskError ≠ .timeoutError ∧
      fetch_and_cache_joke_raises .valueError = .taskError := by
  refine ⟨by decide, by decide, by decide⟩

/-- C6 (amended): when a handler execution of `fetch_and_cache_joke`
exceeds the configured `job_timeout` deadline, the resulting
`asyncio.TimeoutError` is caught and re-raised as the task's generic
`TaskError` (the same kind used for its other failures), and the retry
policy is consulted with that kind, which its `retry_exceptions` list
contains, so while attempts remain a retry is granted. -/
theorem c6_amended_timeout_becomes_task_error (j : Job)
    (h : j.attempts < fetch_and_cache_joke_retry.max_attempts) :
    fetch_and_cache_joke_raises .timeoutError = .taskError ∧
      get_retry_decision fetch_and_cache_joke_retry
          (some (fetch_and_cache_joke_raises .timeoutError)) j =
        some ⟨ratTrunc (min (fetch_and_cache_joke_retry.base_delay *
          2 ^ j.attempts) fetch_and_cache_joke_retry.max_delay)⟩ := by
  refine ⟨by decide, ?_⟩
  exact get_retry_decision_grant fetch_and_cache_joke_retry
    (some (fetch_and_cache_joke_raises .timeoutError)) j h
    (Or.inr ⟨[.taskError, .httpError, .timeoutException], .taskError,
      rfl, by decide, by decide⟩)

/-- C6 witness: at `attempts = 1` the timeout-turned-`TaskError` is
granted a retry of `int(min(2 * 2, 300)) = 4` seconds. -/
theorem c6_amended_timeout_becomes_task_error_witness :
    (1:ℕ) < 5 ∧
      get_retry_decision fetch_and_cache_joke_retry
          (some (fetch_and_cache_joke_raises .timeoutError)) ⟨1⟩ =
        some ⟨4⟩ :=
  ⟨by decide,
    ((c6_amended_timeout_becomes_task_error ⟨1⟩ (by decide)).2).trans
      (by with_unfolding_all rfl)⟩

/-- Unfolding `readyCount` over a cons cell. -/
theorem readyCount_cons (j : StoreJob) (rest : List StoreJob) :
    readyCount (j :: rest) =
      readyCount rest + (if j.status = .todo then 1 else 0) := by
  by_cases hj : j.status = .todo <;>
    simp [readyCount, List.filter_cons, hj]

/-- Unfolding `todoIds` over a cons cell. -/
theorem todoIds_cons (j : StoreJob) (rest : List StoreJob) :
    todoIds (j :: rest) =
      if j.status = .todo then j.id :: todoIds rest else todoIds rest := by
  by_cases hj : j.status = .todo <;>
    simp [todoIds, List.filter_cons, hj]

/-- Every ready job id is a job id of the store. -/
theorem todoIds_subset_ids (s : List StoreJob) :
    todoIds s ⊆ s.map StoreJob.id := by
  intro x hx
  simp only [todoIds, List.mem_map, List.mem_filter] at hx
  obtain ⟨j, hj, rfl⟩ := hx
  exact List.mem_map_of_mem _ hj.1

/-- Leasing never changes the list of job ids in the store. -/
theorem lease_map_id (s : List StoreJob) :
    ((lease s).2).map StoreJob.id = s.map StoreJob.id := by
  induction s with
  | nil => rfl
  | cons j rest ih =>
    by_cases hj : j.status = .todo
    · simp [lease, hj]
    · simp [lease, hj, ih]

/-- A `lease` call that returns no id leaves the store unchanged. -/
theorem lease_none_store (s : List StoreJob) (h : (lease s).1 = none) :
    (lease s).2 = s := by
  induction s with
  | nil => rfl
  | cons j rest ih =>
    by_cases hj : j.status = .todo
    · simp [lease, hj] at h
    · simp only [lease, hj, if_false] at h ⊢
      exact congrArg (j :: ·) (ih h)

/-- A `lease` call returns no id only on a store with no ready job. -/
theorem lease_none_ready (s : List StoreJob) (h : (lease s).1 = none) :
    readyCount s = 0 := by
  induction s with
  | nil => rfl
  | cons j rest ih =>
    by_cases hj : j.status = .todo
    · simp [lease, hj] at h
    · simp only [lease, hj, if_false] at h
      rw [readyCount_cons]
      simp only [hj, if_false, Nat.add_zero]
      exact ih h

/-- What a successful `lease` call guarantees: the returned id was a
ready job id, exactly one ready job is consumed, the ready ids only
shrink, and — when the store's ids are distinct — the returned id is no
longer ready afterwards. -/
theorem lease_some_spec (s : List StoreJob) (i : ℕ) (s2 : List StoreJob)
    (h : lease s = (some i, s2)) :
    i ∈ todoIds s ∧ readyCount s2 + 1 = readyCount s ∧
      todoIds s2 ⊆ todoIds s ∧
      ((s.map StoreJob.id).Nodup → i ∉ todoIds s2) := by
  induction s generalizing s2 with
  | nil => simp [lease] at h
  | cons j rest ih =>
    by_cases hj : j.status = .todo
    · simp only [lease, hj, if_true, Prod.mk.injEq, Option.some.injEq] at h
      obtain ⟨rfl, rfl⟩ := h
      refine ⟨?_, ?_, ?_, ?_⟩
      · simp [todoIds_cons, hj]
      · simp [readyCount_cons, hj]
      · rw [todoIds_cons, todoIds_cons]
        simp only [hj, if_true]
        intro x hx
        simp at hx
        exact List.mem_cons_of_mem _ hx
      · intro hnd hmem
        rw [todoIds_cons] at hmem
        simp at hmem
        have hids : j.id ∉ rest.map StoreJob.id :=
          (List.nodup_cons.mp hnd).1
        exact hids (todoIds_subset_ids rest hmem)
    · simp only [lease, hj, if_false, Prod.mk.injEq] at h
      obtain ⟨h1, h2⟩ := h
      subst h2
      have hr : lease rest = (some i, (lease rest).2) := by
        rw [← h1]
      obtain ⟨hmem, hcount, hsub, hfresh⟩ := ih (lease rest).2 hr
      refine ⟨?_, ?_, ?_, ?_⟩
      · rw [todoIds_cons]
        simp only [hj, if_false]
        exact hmem
      · rw [readyCount_cons, readyCount_cons]
        simp only [hj, if_false, Nat.add_zero]
        exact hcount
      · rw [todoIds_cons, todoIds_cons]
        simp only [hj, if_false]
        exact hsub
      · intro hnd hmem2
        rw [todoIds_cons] at hmem2
        simp only [hj, if_false] at hmem2
        exact hfresh (List.Nodup.of_cons hnd) hmem2

/-- Every id returned by a run of leases was a ready job id of the
initial store. -/
theorem leaseMany_mem_todo (n : ℕ) (s : List StoreJob) (x : ℕ)
    (hx : x ∈ (leaseMany n s).1) : x ∈ todoIds s := by
  induction n generalizing s with
  | zero => simp [leaseMany] at hx
  | succ n ih =>
    cases hl : lease s with
    | mk o s2 =>
      cases o with
      | none =>
        have hs2 : s2 = s := by
          have h' := lease_none_store s (by rw [hl])
          rw [hl] at h'
          exact h'
        subst hs2
        simp only [leaseMany, hl] at hx
        exact ih s2 hx
      | some i =>
        simp only [leaseMany, hl, List.mem_cons] at hx
        obtain ⟨hmem, _, hsub, _⟩ := lease_some_spec s i s2 (by rw [hl])
        rcases hx with rfl | hx
        · exact hmem
        · exact hsub (ih s2 hx)

/-- C4: for `n` concurrent lease calls against the same job store —
each leaser calling once, every call a single atomic operation, so any
interleaving is a sequence of atomic `lease` steps — the list of
returned job ids contains no duplicates and has size
`min(n, number of ready jobs)`: two concurrent lease calls never return
the same job. -/
theorem c4_concurrent_leases_never_share_a_job (n : ℕ)
    (s : List StoreJob) (hnd : (s.map StoreJob.id).Nodup) :
    (leaseMany n s).1.Nodup ∧
      (leaseMany n s).1.length = min n (readyCount s) := by
  induction n generalizing s with
  | zero => simp [leaseMany]
  | succ n ih =>
    cases hl : lease s with
    | mk o s2 =>
      cases o with
      | none =>
        have h0 : readyCount s = 0 := lease_none_ready s (by rw [hl])
        have hs2 : s2 = s := by
          have h' := lease_none_store s (by rw [hl])
          rw [hl] at h'
          exact h'
        subst hs2
        simp only [leaseMany, hl]
        obtain ⟨h1, h2⟩ := ih s2 hnd
        refine ⟨h1, ?_⟩
        rw [h2, h0]
        simp
      | some i =>
        obtain ⟨hmem, hcount, hsub, hfresh⟩ :=
          lease_some_spec s i s2 (by rw [hl])
        have hids : s2.map StoreJob.id = s.map StoreJob.id := by
          have h' := lease_map_id s
          rw [hl] at h'
          exact h'
        have hnd2 : (s2.map StoreJob.id).Nodup := by
          rw [hids]
          exact hnd
        obtain ⟨ihnd, ihlen⟩ := ih s2 hnd2
        have hni : i ∉ (leaseMany n s2).1 := fun hmem' =>
          (hfresh hnd) (leaseMany_mem_todo n s2 i hmem')
        simp only [leaseMany, hl]
        refine ⟨List.nodup_cons.mpr ⟨hni, ihnd⟩, ?_⟩
        simp only [List.length_cons, ihlen]
        omega

/-- C4 witness: five leasers against a store of four jobs of which two
are ready obtain exactly the two ready ids, without duplicates. -/
theorem c4_concurrent_leases_never_share_a_job_witness :
    (([⟨1, .todo⟩, ⟨2, .doing⟩, ⟨3, .todo⟩, ⟨4, .succeeded⟩] :
        List StoreJob).map StoreJob.id).Nodup ∧
      (leaseMany 5 [⟨1, .todo⟩, ⟨2, .doing⟩, ⟨3, .todo⟩,
          ⟨4, .succeeded⟩]).1.Nodup ∧
      (leaseMany 5 [⟨1, .todo⟩, ⟨2, .doing⟩, ⟨3, .todo⟩,
          ⟨4, .succeeded⟩]).1.length =
        min 5 (readyCount [⟨1, .todo⟩, ⟨2, .doing⟩, ⟨3, .todo⟩,
          ⟨4, .succeeded⟩]) :=
  ⟨by decide,
    (c4_concurrent_leases_never_share_a_job 5
        [⟨1, .todo⟩, ⟨2, .doing⟩, ⟨3, .todo⟩, ⟨4, .succeeded⟩]
        (by decide)).1,
    (c4_concurrent_leases_never_share_a_job 5
        [⟨1, .todo⟩, ⟨2, .doing⟩, ⟨3, .todo⟩, ⟨4, .succeeded⟩]
        (by decide)).2⟩

/-- The conflict update leaves the row key unchanged. -/
theorem upsertRow_joke_id (x r : JokeRow) :
    (upsertRow x r).joke_id = x.joke_id := by
  unfold upsertRow
  split <;> rfl

/-- The per-row conflict update is idempotent. -/
theorem upsertRow_idem (x r : JokeRow) :
    upsertRow (upsertRow x r) r = upsertRow x r := by
  unfold upsertRow
  by_cases h : x.joke_id = r.joke_id <;> simp [h]

/-- Updating a row with its own values is the identity. -/
theorem upsertRow_self (r : JokeRow) : upsertRow r r = r := by
  unfold upsertRow
  simp

/-- C8: the joke-caching write is idempotent: applying the same
successful handler write (the upsert keyed by `joke_id`) twice to any
store state leaves the store in the same final state as applying it
once: `apply(apply(S, op), op) = apply(S, op)`. -/
theorem c8_cache_joke_upsert_idempotent (store : List JokeRow)
    (r : JokeRow) :
    cache_joke_in_db (cache_joke_in_db store r) r =
      cache_joke_in_db store r := by
  by_cases h : store.any (fun x => decide (x.joke_id = r.joke_id)) = true
  · have hinner : cache_joke_in_db store r =
        store.map (fun x => upsertRow x r) := by
      rw [cache_joke_in_db, if_pos h]
    rw [hinner]
    have hany : ((store.map (fun x => upsertRow x r)).any
        (fun x => decide (x.joke_id = r.joke_id))) = true := by
      rw [List.any_map]
      have hfun : ((fun x => decide (x.joke_id = r.joke_id)) ∘
          (fun x => upsertRow x r)) =
          fun x => decide (x.joke_id = r.joke_id) := by
        funext x
        simp [Function.comp, upsertRow_joke_id]
      rw [hfun]
      exact h
    rw [cache_joke_in_db, if_pos hany, List.map_map]
    have hcomp : ((fun x => upsertRow x r) ∘ (fun x => upsertRow x r)) =
        fun x => upsertRow x r := by
      funext x
      simp [Function.comp, upsertRow_idem]
    rw [hcomp]
  · have hinner : cache_joke_in_db store r = store ++ [r] := by
      rw [cache_joke_in_db, if_neg h]
    rw [hinner]
    have hnot : ∀ x ∈ store, x.joke_id ≠ r.joke_id := by
      intro x hx
      have h' := (List.any_eq_false.mp (Bool.not_eq_true _ ▸ h)) x hx
      simpa using h'
    have hany : ((store ++ [r]).any
        (fun x => decide (x.joke_id = r.joke_id))) = true := by
      simp
    rw [cache_joke_in_db, if_pos hany, List.map_append]
    have hstore : store.map (fun x => upsertRow x r) = store := by
      have : ∀ x ∈ store, upsertRow x r = x := by
        intro x hx
        unfold upsertRow
        rw [if_neg (hnot x hx)]
      calc store.map (fun x => upsertRow x r) = store.map id :=
            List.map_congr_left this
        _ = store := List.map_id store
    rw [hstore]
    simp [upsertRow_self]
